import Mathlib

/-!
Verification of the GENEA_2020 training harness.

The development shallowly embeds the three source files of the repository:

* `tools/trainer.py` — the `MotionTrainer` class: its epoch loop with
  best-loss checkpointing and early stopping by patience.  Per-batch
  criterion losses are abstracted as rational numbers (the `criterion` is an
  externally supplied framework module); `math.inf`, the initial value of
  `best_loss`, is modelled as `⊤` in `WithTop ℚ`.  Writing a checkpoint with
  `torch.save(self.model.state_dict(), self.model_name)` is modelled by
  recording the epoch index in a `saves` list.
* `tools/datasets.py` — `MotionDataset` (denoising-autoencoder pairs and its
  collate function) and `SpeechMotionDataset` (its collate function).
  Tensors are lists of real numbers; `np.random.normal` is abstracted as a
  sampler parameter receiving the scale and size that the code passes to it.
* `Seq2Seq/system.py` — the loss composition of `Seq2SeqSystem` and
  `AdversarialSeq2SeqSystem`, the adversarial training step, and
  `configure_optimizers`.  The `Encoder`/`Decoder`/`Discriminator` networks
  live in `model.py`, which the repository's spec excludes as framework
  responsibility; they appear as opaque functions carried by the system
  record.
-/

namespace Genea

/-! ## Tensors

A 1-D tensor is a list of reals, a 2-D tensor a list of rows.  Indexing
`t[1:]` and `t[:-1]` become `List.tail` and `List.dropLast`. -/

abbrev T1 : Type := List ℝ

abbrev T2 : Type := List T1

/-- Number of elements of a 2-D tensor (`Tensor.numel`). -/
def numel (t : T2) : ℕ := (t.map List.length).sum

/-- Elementwise difference of two 2-D tensors. -/
def tsub (p q : T2) : T2 := List.zipWith (List.zipWith (· - ·)) p q

/-- Sum of squares of all elements of a 2-D tensor. -/
def sqSum (t : T2) : ℝ := (t.map (fun r => (r.map (fun a => a ^ 2)).sum)).sum

/-- `torch.norm` on a 2-D tensor: the Frobenius norm. -/
noncomputable def frobNorm (t : T2) : ℝ := Real.sqrt (sqSum t)

/-- `torch.nn.MSELoss()` with its default mean reduction: the sum of squared
elementwise differences divided by the number of elements. -/
noncomputable def mseLoss (p y : T2) : ℝ := sqSum (tsub p y) / (numel p : ℝ)

/-- `p[1:] - p[:-1]`: consecutive-row differences of a 2-D tensor. -/
def rowDiff (p : T2) : T2 := tsub p.tail p.dropLast

/-- The divisor `p.size(0) - 1` of the continuity term of `calculate_loss`
(real-valued, as in the Python expression). -/
def contDivisor (p : T2) : ℝ := (p.length : ℝ) - 1

/-- `torch.ones((n, m))`. -/
def ones (n m : ℕ) : T2 := List.replicate n (List.replicate m 1)

/-- `torch.zeros((n, m))` (only used to state what `1 - ones` equals). -/
def zeros (n m : ℕ) : T2 := List.replicate n (List.replicate m 0)

/-- `1 - t`, elementwise subtraction of a tensor from the scalar one. -/
def oneSub (t : T2) : T2 := t.map (List.map (fun a => 1 - a))

/-- `Tensor.detach()`: the identity on values (it only cuts gradients). -/
def detach (t : T2) : T2 := t

/-- Pointwise binary cross-entropy with logits:
`-t * log (sigmoid z) - (1 - t) * log (1 - sigmoid z)`, in the
algebraically equivalent form `(1 - t) * z + log (1 + exp (-z))`. -/
noncomputable def bceElem (z t : ℝ) : ℝ := (1 - t) * z + Real.log (1 + Real.exp (-z))

/-- `F.binary_cross_entropy_with_logits` with its default mean reduction. -/
noncomputable def bceWithLogits (z t : T2) : ℝ :=
  ((List.zipWith (List.zipWith bceElem) z t).map List.sum).sum / (numel z : ℝ)

/-! ## `tools/trainer.py`: `MotionTrainer`

The loop state carries the fields that `__init__` sets and `train` updates:
`best_loss` (initially `math.inf`, i.e. `⊤`), `best_epoch` (initially `0`),
the list of epochs at which a checkpoint was written, and the number of
completed epochs (the loop variable `epoch` always equals it). -/

structure TrainerState where
  best_loss : WithTop ℚ
  best_epoch : ℕ
  saves : List ℕ
  epochs_run : ℕ

/-- The state built by `MotionTrainer.__init__`. -/
def initState : TrainerState := ⟨⊤, 0, [], 0⟩

/-- `MotionTrainer.test_epoch` with the per-batch values of
`self.criterion(predict, labels).item()` abstracted as a list: it returns
their sum divided by the number of test batches (`len(self.test_iterator)`). -/
def test_epoch (batchLosses : List ℚ) : ℚ := batchLosses.sum / (batchLosses.length : ℚ)

/-- The body of one iteration of the loop of `MotionTrainer.train`, after
`test_loss = self.test_epoch()` returned `testLoss` in epoch `epoch`:
on strict improvement the model is saved and `best_loss`/`best_epoch`
updated, otherwise nothing but the epoch counter changes. -/
def trainStep (testLoss : ℚ) (epoch : ℕ) (s : TrainerState) : TrainerState :=
  if (testLoss : WithTop ℚ) < s.best_loss then
    { best_loss := (testLoss : WithTop ℚ)
      best_epoch := epoch
      saves := s.saves ++ [epoch]
      epochs_run := s.epochs_run + 1 }
  else
    { s with epochs_run := s.epochs_run + 1 }

/-- The state after the first `n` epochs of the loop have completed (ignoring
the early-stopping break, which never modifies the state — it only stops). -/
def stateAfter (loss : ℕ → ℚ) : ℕ → TrainerState
  | 0 => initState
  | n + 1 => trainStep (loss n) n (stateAfter loss n)

/-- The loop of `MotionTrainer.train`, by remaining-epoch fuel.  The current
epoch index equals `s.epochs_run`.  After each completed epoch the code
breaks when `epoch - self.best_epoch > patience`. -/
def trainAux (loss : ℕ → ℚ) (patience : ℕ) : ℕ → TrainerState → TrainerState
  | 0, s => s
  | r + 1, s =>
    let e := s.epochs_run
    let s' := trainStep (loss e) e s
    if patience < e - s'.best_epoch then s' else trainAux loss patience r s'

/-- `MotionTrainer.train(num_epoches, patience)`, with the test loss of epoch
`e` abstracted as `loss e` (its value through `test_epoch` is fixed by the
test set, which does not change across epochs of this loop only through the
model; the abstraction leaves it an arbitrary function of the epoch). -/
def MotionTrainer.train (loss : ℕ → ℚ) (num_epoches patience : ℕ) : TrainerState :=
  trainAux loss patience num_epoches initState

/-- Running minimum of the test losses of epochs `0 … n-1`, starting from
`math.inf`. -/
def minUpto (loss : ℕ → ℚ) : ℕ → WithTop ℚ
  | 0 => ⊤
  | n + 1 => min (minUpto loss n) ((loss n : WithTop ℚ))

/-- The value of `best_epoch` after epochs `0 … n-1`: updated to `n-1` only on
a strict improvement. -/
def bestEpochUpto (loss : ℕ → ℚ) : ℕ → ℕ
  | 0 => 0
  | n + 1 => if (loss n : WithTop ℚ) < minUpto loss n then n else bestEpochUpto loss n

/-- The epochs among `0 … n-1` at which a checkpoint is written: those whose
test loss strictly improves on the running best. -/
def savesUpto (loss : ℕ → ℚ) (n : ℕ) : List ℕ :=
  (List.range n).filter (fun e => decide ((loss e : WithTop ℚ) < minUpto loss e))

/-- The early-stopping condition checked at the end of epoch `e`:
`epoch - self.best_epoch > patience` with `best_epoch` as updated by epoch
`e` itself. -/
def stopsAt (loss : ℕ → ℚ) (patience e : ℕ) : Prop :=
  patience < e - bestEpochUpto loss (e + 1)

instance (loss : ℕ → ℚ) (patience e : ℕ) : Decidable (stopsAt loss patience e) :=
  inferInstanceAs (Decidable (_ < _))

/-- How many further epochs the loop runs from epoch `k` with `r` epochs of
fuel left. -/
def runLength (loss : ℕ → ℚ) (patience : ℕ) : ℕ → ℕ → ℕ
  | 0, _ => 0
  | r + 1, k => if stopsAt loss patience k then 1 else 1 + runLength loss patience r (k + 1)

theorem stateAfter_eq (loss : ℕ → ℚ) (n : ℕ) :
    stateAfter loss n =
      ⟨minUpto loss n, bestEpochUpto loss n, savesUpto loss n, n⟩ := by
  induction n with
  | zero => rfl
  | succ n ih =>
    have hr : List.range (n + 1) = List.range n ++ [n] := by
      simpa using List.range_succ (n := n)
    by_cases h : (loss n : WithTop ℚ) < minUpto loss n
    · simp only [stateAfter, ih, trainStep, h, if_pos, minUpto, bestEpochUpto, savesUpto, hr,
        List.filter_append, List.filter_cons, decide_eq_true h, TrainerState.mk.injEq]
      exact ⟨(min_eq_right h.le).symm, trivial, by simp, trivial⟩
    · simp only [stateAfter, ih, trainStep, h, if_neg, minUpto, bestEpochUpto, savesUpto, hr,
        List.filter_append, List.filter_cons, if_false, decide_eq_false h,
        TrainerState.mk.injEq]
      exact ⟨(min_eq_left (not_lt.mp h)).symm, trivial, by simp, trivial⟩

theorem stateAfter_epochs_run (loss : ℕ → ℚ) (n : ℕ) :
    (stateAfter loss n).epochs_run = n := by
  rw [stateAfter_eq]

theorem trainAux_stateAfter (loss : ℕ → ℚ) (patience : ℕ) :
    ∀ r k, trainAux loss patience r (stateAfter loss k) =
      stateAfter loss (k + runLength loss patience r k) := by
  intro r
  induction r with
  | zero => intro k; simp [trainAux, runLength]
  | succ r ih =>
    intro k
    have he : (stateAfter loss k).epochs_run = k := stateAfter_epochs_run loss k
    have hstep : trainStep (loss k) k (stateAfter loss k) = stateAfter loss (k + 1) := rfl
    have hbe : (stateAfter loss (k + 1)).best_epoch = bestEpochUpto loss (k + 1) := by
      rw [stateAfter_eq]
    simp only [trainAux, he, hstep, hbe, runLength]
    by_cases h : stopsAt loss patience k
    · rw [if_pos (show patience < k - bestEpochUpto loss (k + 1) from h), if_pos h]
    · rw [if_neg (show ¬ patience < k - bestEpochUpto loss (k + 1) from h), if_neg h,
        ih (k + 1), ← Nat.add_assoc]

theorem train_eq_stateAfter (loss : ℕ → ℚ) (num_epoches patience : ℕ) :
    MotionTrainer.train loss num_epoches patience =
      stateAfter loss (runLength loss patience num_epoches 0) := by
  have h0 : initState = stateAfter loss 0 := rfl
  rw [MotionTrainer.train, h0, trainAux_stateAfter, Nat.zero_add]

theorem runLength_le (loss : ℕ → ℚ) (patience : ℕ) :
    ∀ r k, runLength loss patience r k ≤ r := by
  intro r
  induction r with
  | zero => intro k; simp [runLength]
  | succ r ih =>
    intro k
    rw [runLength]
    by_cases h : stopsAt loss patience k
    · rw [if_pos h]; omega
    · rw [if_neg h]; have := ih (k + 1); omega

theorem runLength_eq_of_no_stop (loss : ℕ → ℚ) (patience : ℕ) :
    ∀ r k, (∀ j, j < r → ¬ stopsAt loss patience (k + j)) →
      runLength loss patience r k = r := by
  intro r
  induction r with
  | zero => intro k _; rfl
  | succ r ih =>
    intro k h
    have h0 : ¬ stopsAt loss patience k := by
      have := h 0 (Nat.succ_pos r); simpa using this
    rw [runLength, if_neg h0, ih (k + 1) (fun j hj => by
      have h2 := h (j + 1) (by omega)
      have h3 : k + (j + 1) = k + 1 + j := by omega
      rw [h3] at h2; exact h2)]
    omega

theorem runLength_stop (loss : ℕ → ℚ) (patience : ℕ) :
    ∀ r k, runLength loss patience r k < r →
      1 ≤ runLength loss patience r k ∧
      stopsAt loss patience (k + runLength loss patience r k - 1) := by
  intro r
  induction r with
  | zero => intro k h; omega
  | succ r ih =>
    intro k h
    by_cases h0 : stopsAt loss patience k
    · rw [runLength, if_pos h0]
      exact ⟨le_refl 1, by simpa using h0⟩
    · rw [runLength, if_neg h0] at h ⊢
      have hlt : runLength loss patience r (k + 1) < r := by omega
      have := ih (k + 1) hlt
      refine ⟨by omega, ?_⟩
      have harith : k + 1 + runLength loss patience r (k + 1) - 1 =
          k + (1 + runLength loss patience r (k + 1)) - 1 := by omega
      rw [← harith]
      exact this.2

theorem runLength_no_stop_inside (loss : ℕ → ℚ) (patience : ℕ) :
    ∀ r k j, j + 1 < runLength loss patience r k → ¬ stopsAt loss patience (k + j) := by
  intro r
  induction r with
  | zero => intro k j h; simp [runLength] at h
  | succ r ih =>
    intro k j h
    by_cases h0 : stopsAt loss patience k
    · rw [runLength, if_pos h0] at h; omega
    · rw [runLength, if_neg h0] at h
      match j with
      | 0 => simpa using h0
      | j + 1 =>
        have h3 := ih (k + 1) j (by omega)
        have h4 : k + 1 + j = k + (j + 1) := by omega
        rw [h4] at h3
        exact h3

theorem bestEpochUpto_le (loss : ℕ → ℚ) : ∀ n, bestEpochUpto loss n ≤ n := by
  intro n
  induction n with
  | zero => exact le_refl 0
  | succ n ih =>
    rw [bestEpochUpto]
    by_cases h : (loss n : WithTop ℚ) < minUpto loss n
    · rw [if_pos h]; omega
    · rw [if_neg h]; omega

theorem bestEpochUpto_mono (loss : ℕ → ℚ) :
    ∀ m n, m ≤ n → bestEpochUpto loss m ≤ bestEpochUpto loss n := by
  intro m n h
  induction n with
  | zero =>
    have hm0 : m = 0 := by omega
    subst hm0; exact le_refl _
  | succ n ih =>
    rcases Nat.lt_or_ge m (n + 1) with hm | hm
    · have hmn : m ≤ n := by omega
      have h1 := ih hmn
      rw [bestEpochUpto]
      by_cases hc : (loss n : WithTop ℚ) < minUpto loss n
      · rw [if_pos hc]
        exact le_trans h1 (le_trans (bestEpochUpto_le loss n) (le_refl n))
      · rw [if_neg hc]; exact h1
    · have : m = n + 1 := by omega
      subst this; exact le_refl _

theorem bestEpochUpto_lt (loss : ℕ → ℚ) : ∀ n, 1 ≤ n → bestEpochUpto loss n < n := by
  intro n
  induction n with
  | zero => omega
  | succ n ih =>
    intro _
    rw [bestEpochUpto]
    by_cases h : (loss n : WithTop ℚ) < minUpto loss n
    · rw [if_pos h]; omega
    · rw [if_neg h]
      rcases Nat.eq_zero_or_pos n with h0 | h0
      · subst h0; simp [bestEpochUpto]
      · exact lt_trans (ih h0) (Nat.lt_succ_self n)

theorem minUpto_le (loss : ℕ → ℚ) :
    ∀ n i, i < n → minUpto loss n ≤ (loss i : WithTop ℚ) := by
  intro n
  induction n with
  | zero => omega
  | succ n ih =>
    intro i hi
    rcases Nat.lt_or_ge i n with h | h
    · exact le_trans (min_le_left _ _) (ih i h)
    · have : i = n := by omega
      subst this
      exact min_le_right _ _

theorem bestEpochUpto_spec (loss : ℕ → ℚ) :
    ∀ n, 1 ≤ n →
      (loss (bestEpochUpto loss n) : WithTop ℚ) = minUpto loss n ∧
      ∀ i, i < bestEpochUpto loss n → minUpto loss n < (loss i : WithTop ℚ) := by
  intro n
  induction n with
  | zero => omega
  | succ n ih =>
    intro _
    rcases Nat.eq_zero_or_pos n with h0 | h0
    · subst h0
      have htop : ((loss 0 : ℚ) : WithTop ℚ) < (⊤ : WithTop ℚ) := WithTop.coe_lt_top _
      constructor
      · simp [bestEpochUpto, minUpto, htop]
      · intro i hi
        simp [bestEpochUpto, minUpto, htop] at hi
    · by_cases h : (loss n : WithTop ℚ) < minUpto loss n
      · have hmin : minUpto loss (n + 1) = (loss n : WithTop ℚ) := by
          rw [minUpto]; exact min_eq_right h.le
        have hbe : bestEpochUpto loss (n + 1) = n := by
          rw [bestEpochUpto, if_pos h]
        refine ⟨by rw [hbe, hmin], ?_⟩
        intro i hi
        rw [hbe] at hi
        rw [hmin]
        exact lt_of_lt_of_le h (minUpto_le loss n i hi)
      · have hmin : minUpto loss (n + 1) = minUpto loss n := by
          rw [minUpto]; exact min_eq_left (not_lt.mp h)
        have hbe : bestEpochUpto loss (n + 1) = bestEpochUpto loss n := by
          rw [bestEpochUpto, if_neg h]
        obtain ⟨ih1, ih2⟩ := ih h0
        exact ⟨by rw [hbe, hmin, ih1], fun i hi => by
          rw [hbe] at hi; rw [hmin]; exact ih2 i hi⟩

/-- C1: During `MotionTrainer.train`, a model checkpoint is saved after an
epoch if and only if that epoch's test loss — computed by `test_epoch` as the
sum of per-batch criterion losses divided by the number of test batches — is
strictly less than the best test loss of every earlier epoch (`math.inf`,
i.e. `⊤`, before any epoch); when no improvement occurs, no checkpoint is
written that epoch. -/
theorem C1_checkpoint_iff_strict_improvement
    (batchLosses : ℕ → List ℚ) (num_epoches patience e : ℕ) :
    e ∈ (MotionTrainer.train (fun i => test_epoch (batchLosses i))
          num_epoches patience).saves ↔
      e < (MotionTrainer.train (fun i => test_epoch (batchLosses i))
            num_epoches patience).epochs_run ∧
      ((test_epoch (batchLosses e) : ℚ) : WithTop ℚ) <
        minUpto (fun i => test_epoch (batchLosses i)) e := by
  rw [train_eq_stateAfter, stateAfter_eq]
  simp [savesUpto, List.mem_filter, List.mem_range]

/-- C2: `MotionTrainer.train(num_epoches, patience)` implements early stopping
by patience: every epoch it runs has index at most `best_epoch + patience + 1`;
it exits the loop immediately after the first completed epoch whose index
exceeds `best_epoch + patience` (no epoch strictly before the last one
triggers the stop condition, and if the run is cut short the last completed
epoch does trigger it); and if no epoch triggers it, exactly `num_epoches`
epochs run. -/
theorem C2_patience_early_stopping (loss : ℕ → ℚ) (num_epoches patience : ℕ) :
    (∀ i, i < (MotionTrainer.train loss num_epoches patience).epochs_run →
        i ≤ (MotionTrainer.train loss num_epoches patience).best_epoch +
          patience + 1) ∧
    (MotionTrainer.train loss num_epoches patience).epochs_run ≤ num_epoches ∧
    (∀ e, e + 1 < (MotionTrainer.train loss num_epoches patience).epochs_run →
        ¬ stopsAt loss patience e) ∧
    ((MotionTrainer.train loss num_epoches patience).epochs_run < num_epoches →
        1 ≤ (MotionTrainer.train loss num_epoches patience).epochs_run ∧
        stopsAt loss patience
          ((MotionTrainer.train loss num_epoches patience).epochs_run - 1)) ∧
    ((∀ e, e < num_epoches → ¬ stopsAt loss patience e) →
        (MotionTrainer.train loss num_epoches patience).epochs_run =
          num_epoches) := by
  have ht := train_eq_stateAfter loss num_epoches patience
  have hrun : (MotionTrainer.train loss num_epoches patience).epochs_run =
      runLength loss patience num_epoches 0 := by
    rw [ht, stateAfter_epochs_run]
  have hbe : (MotionTrainer.train loss num_epoches patience).best_epoch =
      bestEpochUpto loss (runLength loss patience num_epoches 0) := by
    rw [ht, stateAfter_eq]
  rw [hrun, hbe]
  refine ⟨?_, runLength_le loss patience num_epoches 0, ?_, ?_, ?_⟩
  · intro i hi
    match i with
    | 0 => omega
    | j + 1 =>
      have hns := runLength_no_stop_inside loss patience num_epoches 0 j hi
      rw [Nat.zero_add] at hns
      unfold stopsAt at hns
      have h1 : j - bestEpochUpto loss (j + 1) ≤ patience := not_lt.mp hns
      have h2 : bestEpochUpto loss (j + 1) ≤
          bestEpochUpto loss (runLength loss patience num_epoches 0) :=
        bestEpochUpto_mono loss (j + 1) _ (le_of_lt hi)
      have h3 : bestEpochUpto loss (j + 1) ≤ j := by
        have := bestEpochUpto_lt loss (j + 1) (by omega)
        omega
      omega
  · intro e he
    have := runLength_no_stop_inside loss patience num_epoches 0 e he
    rwa [Nat.zero_add] at this
  · intro hlt
    have := runLength_stop loss patience num_epoches 0 hlt
    rwa [Nat.zero_add] at this
  · intro hno
    exact runLength_eq_of_no_stop loss patience num_epoches 0
      (fun j hj => by rw [Nat.zero_add]; exact hno j hj)

/-- C10: Throughout `MotionTrainer.train`, `best_loss` is nonincreasing over
epochs and after each epoch equals the minimum of all test-epoch losses
observed so far (`math.inf`, i.e. `⊤`, before any epoch), while `best_epoch`
is the index of the earliest epoch achieving that minimum (its loss equals
the minimum and every strictly earlier epoch's loss is strictly above it);
the final conjunct identifies the state the run actually reaches with the
per-epoch state trajectory, so the invariant holds along the real run. -/
theorem C10_best_loss_min_invariant (loss : ℕ → ℚ) (num_epoches patience k : ℕ)
    (hk : 1 ≤ k) :
    (stateAfter loss k).best_loss ≤ (stateAfter loss (k - 1)).best_loss ∧
    (stateAfter loss k).best_loss = minUpto loss k ∧
    ((loss ((stateAfter loss k).best_epoch) : ℚ) : WithTop ℚ) =
      minUpto loss k ∧
    (∀ i, i < (stateAfter loss k).best_epoch →
        minUpto loss k < ((loss i : ℚ) : WithTop ℚ)) ∧
    (stateAfter loss k).best_epoch < k ∧
    MotionTrainer.train loss num_epoches patience =
      stateAfter loss
        ((MotionTrainer.train loss num_epoches patience).epochs_run) := by
  obtain ⟨j, rfl⟩ : ∃ j, k = j + 1 := ⟨k - 1, by omega⟩
  have hb : (stateAfter loss (j + 1)).best_epoch = bestEpochUpto loss (j + 1) := by
    rw [stateAfter_eq]
  have hl : ∀ n, (stateAfter loss n).best_loss = minUpto loss n := fun n => by
    rw [stateAfter_eq]
  obtain ⟨hspec1, hspec2⟩ := bestEpochUpto_spec loss (j + 1) (by omega)
  refine ⟨?_, hl _, ?_, ?_, ?_, ?_⟩
  · rw [hl, hl]
    have hm : minUpto loss (j + 1) ≤ minUpto loss j := by
      rw [minUpto]; exact min_le_left _ _
    simpa using hm
  · rw [hb]; exact hspec1
  · intro i hi
    rw [hb] at hi
    exact hspec2 i hi
  · rw [hb]; exact bestEpochUpto_lt loss (j + 1) (by omega)
  · rw [train_eq_stateAfter, stateAfter_epochs_run]

/-- A concrete test-loss sequence (1, 2, 2, 2, …) on which the run of
`MotionTrainer.train` is cut short by patience. -/
def exLossA : ℕ → ℚ := fun i => if i = 0 then 1 else 2

/-- A concrete test-loss sequence (5, 3, 4, 9, 9, …). -/
def exLossB : ℕ → ℚ := fun i => [5, 3, 4].getD i 9

theorem C2_patience_early_stopping_witness :
    1 ≤ (MotionTrainer.train exLossA 5 1).epochs_run ∧
    stopsAt exLossA 1 ((MotionTrainer.train exLossA 5 1).epochs_run - 1) :=
  (C2_patience_early_stopping exLossA 5 1).2.2.2.1 (by decide)

theorem C10_best_loss_min_invariant_witness :
    (stateAfter exLossB 2).best_loss = minUpto exLossB 2 ∧
    (stateAfter exLossB 2).best_epoch < 2 :=
  ⟨(C10_best_loss_min_invariant exLossB 3 0 2 (by decide)).2.1,
   (C10_best_loss_min_invariant exLossB 3 0 2 (by decide)).2.2.2.2.1⟩

/-! ## `tools/datasets.py`

`MotionDataset` holds a 2-D array of frames; `__getitem__` optionally adds
Gaussian noise to the requested frame, `np.random.normal` being abstracted
as a sampler receiving the scale and size arguments the code passes to it.
The collate functions copy the examples row by row into a tensor allocated
with the shape of the batch's first example; a shape-mismatched copy raises
in the framework, modelled as `none`. -/

structure MotionDataset where
  data : List T1
  sigma : ℝ
  variance : ℝ
  eps : ℝ
  add_noise : Bool

/-- `MotionDataset.__init__(data, device, sigma, variance=0.01, add_noise=True)`
(the `device` is dropped: `.to(device)` does not change values).  `eps` is
always set to `1e-15`. -/
def MotionDataset.init (data : List T1) (sigma variance : ℝ)
    (noiseFlag : Bool) : MotionDataset :=
  ⟨data, sigma, variance, 1e-15, noiseFlag⟩

/-- `MotionDataset.__getitem__(item)`.  `normal scale size` stands for
`np.random.normal(0.0, scale, size)`; the code calls it with scale
`np.multiply(self.sigma, self.variance) + self.eps` and size `len(x)`. -/
noncomputable def MotionDataset.getitem (d : MotionDataset) (item : ℕ)
    (normal : ℝ → ℕ → T1) : T1 × T1 :=
  let x := d.data.getD item []
  if d.add_noise then
    let noise := normal (d.sigma * d.variance + d.eps) x.length
    (List.zipWith (· + ·) x noise, x)
  else
    (x, x)

/-- The row-by-row copy loop `for i in range(batch_size): tensor[i] = x[i]`
into a tensor whose rows have width `w`: every row must have exactly that
width, otherwise the framework raises (`none`). -/
def rowsExact (w : ℕ) : List T1 → Option (List T1)
  | [] => some []
  | r :: rs => if r.length = w then (rowsExact w rs).map (fun l => r :: l) else none

/-- `MotionDataset.collate_fn(batch)`: unzips the batch and copies inputs and
outputs into `(batch_size, x[0].size(0))`- and `(batch_size, y[0].size(0))`-
shaped tensors.  An empty batch indexes `x[0]` out of range (`none`). -/
def MotionDataset.collate_fn (batch : List (T1 × T1)) : Option (T2 × T2) :=
  match batch with
  | [] => none
  | b :: _ => do
    let ins ← rowsExact b.1.length (batch.map Prod.fst)
    let outs ← rowsExact b.2.length (batch.map Prod.snd)
    some (ins, outs)

/-- The copy loop for 2-D examples into a `(batch_size, n₁, n₂)` tensor:
each example must have exactly shape `(n₁, n₂)`. -/
def slabsExact (a b : ℕ) : List T2 → Option (List T2)
  | [] => some []
  | t :: ts =>
    if t.length = a ∧ ∀ r ∈ t, r.length = b then
      (slabsExact a b ts).map (fun l => t :: l)
    else none

/-- `SpeechMotionDataset.collate_fn(batch)`: inputs are 2-D
(`(batch_size, x[0].size(0), x[0].size(1))`), outputs 1-D per example. -/
def SpeechMotionDataset.collate_fn (batch : List (T2 × T1)) :
    Option (List T2 × T2) :=
  match batch with
  | [] => none
  | b :: _ => do
    let ins ← slabsExact b.1.length b.1.headI.length (batch.map Prod.fst)
    let outs ← rowsExact b.2.length (batch.map Prod.snd)
    some (ins, outs)

theorem rowsExact_all (w : ℕ) (rows : List T1)
    (h : ∀ r ∈ rows, r.length = w) : rowsExact w rows = some rows := by
  induction rows with
  | nil => rfl
  | cons r rs ih =>
    have hr : r.length = w := h r (by simp)
    have hrs : rowsExact w rs = some rs := ih (fun a ha => h a (by simp [ha]))
    simp [rowsExact, hr, hrs]

theorem slabsExact_all (a b : ℕ) (ts : List T2)
    (h : ∀ t ∈ ts, t.length = a ∧ ∀ r ∈ t, r.length = b) :
    slabsExact a b ts = some ts := by
  induction ts with
  | nil => rfl
  | cons t ts ih =>
    have ht := h t (by simp)
    have hts : slabsExact a b ts = some ts := ih (fun u hu => h u (by simp [hu]))
    simp only [slabsExact]
    rw [if_pos ht, hts]
    rfl

/-- C6: For every non-empty batch (of uniformly shaped examples, as produced
by a dataset — a shape-mismatched copy raises in the framework),
`MotionDataset.collate_fn` and `SpeechMotionDataset.collate_fn` return a pair
of batch tensors whose first dimension equals the number of examples, whose
remaining dimensions are those of the batch's first example, and whose `i`-th
row is the `i`-th example's data (the outputs are exactly
`batch.map Prod.fst` and `batch.map Prod.snd`, which preserve positions). -/
theorem C6_collate_batches (mb : List (T1 × T1)) (sb : List (T2 × T1))
    (hm : 0 < mb.length) (hs : 0 < sb.length)
    (hmx : ∀ e ∈ mb, e.1.length = mb.headI.1.length)
    (hmy : ∀ e ∈ mb, e.2.length = mb.headI.2.length)
    (hsx : ∀ e ∈ sb, e.1.length = sb.headI.1.length ∧
        ∀ r ∈ e.1, r.length = sb.headI.1.headI.length)
    (hsy : ∀ e ∈ sb, e.2.length = sb.headI.2.length) :
    MotionDataset.collate_fn mb = some (mb.map Prod.fst, mb.map Prod.snd) ∧
    (mb.map Prod.fst).length = mb.length ∧
    (mb.map Prod.snd).length = mb.length ∧
    (∀ r ∈ mb.map Prod.fst, r.length = mb.headI.1.length) ∧
    (∀ r ∈ mb.map Prod.snd, r.length = mb.headI.2.length) ∧
    SpeechMotionDataset.collate_fn sb = some (sb.map Prod.fst, sb.map Prod.snd) ∧
    (sb.map Prod.fst).length = sb.length ∧
    (sb.map Prod.snd).length = sb.length ∧
    (∀ t ∈ sb.map Prod.fst, t.length = sb.headI.1.length ∧
        ∀ r ∈ t, r.length = sb.headI.1.headI.length) ∧
    (∀ r ∈ sb.map Prod.snd, r.length = sb.headI.2.length) := by
  match mb, sb with
  | mbh :: mbt, sbh :: sbt =>
    have h1 : rowsExact mbh.1.length ((mbh :: mbt).map Prod.fst) =
        some ((mbh :: mbt).map Prod.fst) :=
      rowsExact_all _ _ (by
        intro r hr
        obtain ⟨e, he, rfl⟩ := List.mem_map.mp hr
        simpa using hmx e he)
    have h2 : rowsExact mbh.2.length ((mbh :: mbt).map Prod.snd) =
        some ((mbh :: mbt).map Prod.snd) :=
      rowsExact_all _ _ (by
        intro r hr
        obtain ⟨e, he, rfl⟩ := List.mem_map.mp hr
        simpa using hmy e he)
    have h3 : slabsExact sbh.1.length sbh.1.headI.length
        ((sbh :: sbt).map Prod.fst) = some ((sbh :: sbt).map Prod.fst) :=
      slabsExact_all _ _ _ (by
        intro t ht
        obtain ⟨e, he, rfl⟩ := List.mem_map.mp ht
        simpa using hsx e he)
    have h4 : rowsExact sbh.2.length ((sbh :: sbt).map Prod.snd) =
        some ((sbh :: sbt).map Prod.snd) :=
      rowsExact_all _ _ (by
        intro r hr
        obtain ⟨e, he, rfl⟩ := List.mem_map.mp hr
        simpa using hsy e he)
    refine ⟨?_, by simp, by simp, ?_, ?_, ?_, by simp, by simp, ?_, ?_⟩
    · simp only [MotionDataset.collate_fn]
      rw [h1, h2]
      rfl
    · intro r hr
      obtain ⟨e, he, rfl⟩ := List.mem_map.mp hr
      exact hmx e he
    · intro r hr
      obtain ⟨e, he, rfl⟩ := List.mem_map.mp hr
      exact hmy e he
    · simp only [SpeechMotionDataset.collate_fn]
      rw [h3, h4]
      rfl
    · intro t ht
      obtain ⟨e, he, rfl⟩ := List.mem_map.mp ht
      exact hsx e he
    · intro r hr
      obtain ⟨e, he, rfl⟩ := List.mem_map.mp hr
      exact hsy e he

/-- C7: `MotionDataset.__getitem__` returns denoising-autoencoder pairs: the
second component is the clean frame `data[item]`; with `add_noise` the first
component is that frame plus elementwise noise drawn with scale
`sigma * variance + 1e-15`, and without it the first component is the clean
frame itself. -/
theorem C7_getitem_denoising_pair (data : List T1) (sigma variance : ℝ)
    (noiseFlag : Bool) (item : ℕ) (normal : ℝ → ℕ → T1)
    (_hvalid : item < data.length) :
    ((MotionDataset.init data sigma variance noiseFlag).getitem item normal).2 =
      data.getD item [] ∧
    ((MotionDataset.init data sigma variance noiseFlag).getitem item normal).1 =
      (if noiseFlag then
        List.zipWith (· + ·) (data.getD item [])
          (normal (sigma * variance + 1e-15) (data.getD item []).length)
      else data.getD item []) := by
  cases noiseFlag <;>
    simp [MotionDataset.getitem, MotionDataset.init]

/-- A concrete two-example batch of 1-D examples. -/
def exMotionBatch : List (T1 × T1) := [([1, 2], [3]), ([4, 5], [6])]

/-- A concrete two-example batch of (2-D input, 1-D output) examples. -/
def exSpeechBatch : List (T2 × T1) := [([[1], [2]], [5]), ([[3], [4]], [6])]

theorem C6_collate_batches_witness :
    MotionDataset.collate_fn exMotionBatch =
      some (exMotionBatch.map Prod.fst, exMotionBatch.map Prod.snd) ∧
    SpeechMotionDataset.collate_fn exSpeechBatch =
      some (exSpeechBatch.map Prod.fst, exSpeechBatch.map Prod.snd) :=
  ⟨(C6_collate_batches exMotionBatch exSpeechBatch (by decide) (by decide)
      (by decide) (by decide) (by decide) (by decide)).1,
   (C6_collate_batches exMotionBatch exSpeechBatch (by decide) (by decide)
      (by decide) (by decide) (by decide) (by decide)).2.2.2.2.2.1⟩

/-- A concrete two-frame dataset array. -/
def exFrames : List T1 := [[1], [2]]

/-- A concrete stand-in for the noise sampler. -/
def exNormal : ℝ → ℕ → T1 := fun _ n => List.replicate n 0

theorem C7_getitem_denoising_pair_witness :
    ((MotionDataset.init exFrames 1 1 true).getitem 0 exNormal).2 =
      exFrames.getD 0 [] ∧
    ((MotionDataset.init exFrames 1 1 true).getitem 0 exNormal).1 =
      (if true then
        List.zipWith (· + ·) (exFrames.getD 0 [])
          (exNormal (1 * 1 + 1e-15) (exFrames.getD 0 []).length)
      else exFrames.getD 0 []) :=
  C7_getitem_denoising_pair exFrames 1 1 true 0 exNormal (by decide)

/-! ## `Seq2Seq/system.py`

`Seq2SeqSystem.calculate_loss` depends only on its tensor arguments, so it is
embedded as a plain function.  `AdversarialSeq2SeqSystem` is a record holding
the hyperparameters its `__init__` sets, the parameter lists of its three
networks, and the forward maps of encoder∘decoder and of the discriminator —
the network internals live in `model.py` and are framework-supplied, so they
are opaque data of the record. -/

/-- `Seq2SeqSystem.calculate_loss(p, y)`:
`mse_loss + (torch.norm(p[1:] - p[:-1]) / (p.size(0) - 1)) * 0.01`. -/
noncomputable def Seq2SeqSystem.calculate_loss (p y : T2) : ℝ :=
  mseLoss p y + (frobNorm (rowDiff p) / contDivisor p) * 0.01

/-- The `Namespace` that `AdversarialSeq2SeqSystem.__init__` stores in
`self.hparams`. -/
structure HParams where
  prev_poses : ℕ
  pred_poses : ℕ
  lr : ℝ
  beta1 : ℝ
  beta2 : ℝ
  w_cont_loss : ℝ
  w_adv_loss : ℝ

/-- `AdversarialSeq2SeqSystem`, over an abstract type `P` of network
parameters.  `fwd` is the composite `self.forward` (encoder then decoder);
`discriminator` maps a pose tensor to its logit scores. -/
structure AdversarialSeq2SeqSystem (P : Type) where
  hparams : HParams
  encoder_params : List P
  decoder_params : List P
  discriminator_params : List P
  fwd : T2 → T2 → T2
  discriminator : T2 → T2

/-- `AdversarialSeq2SeqSystem.__init__`: stores
`lr=1e-3, beta1=0.5, beta2=0.9, w_cont_loss=0.01, w_adv_loss=0.01` in
`hparams`; the networks and their parameter lists come from `model.py` and
are taken as arguments. -/
def AdversarialSeq2SeqSystem.init (P : Type) (enc dec disc : List P)
    (fwd : T2 → T2 → T2) (discNet : T2 → T2)
    (predicted_poses previous_poses : ℕ) : AdversarialSeq2SeqSystem P :=
  ⟨⟨previous_poses, predicted_poses, 1e-3, 0.5, 0.9, 0.01, 0.01⟩,
   enc, dec, disc, fwd, discNet⟩

/-- `AdversarialSeq2SeqSystem.calculate_loss(p, y)`: like the plain system's
but weighting the continuity term by `self.hparams.w_cont_loss`. -/
noncomputable def AdversarialSeq2SeqSystem.calculate_loss {P : Type}
    (sys : AdversarialSeq2SeqSystem P) (p y : T2) : ℝ :=
  mseLoss p y + (frobNorm (rowDiff p) / contDivisor p) * sys.hparams.w_cont_loss

/-- The `optimizer_idx == 0` branch of
`AdversarialSeq2SeqSystem.training_step` (its `'loss'` entry; the other
entries of the returned dict are logging metadata). -/
noncomputable def AdversarialSeq2SeqSystem.generatorStep {P : Type}
    (sys : AdversarialSeq2SeqSystem P) (batch : T2 × T2 × T2) : ℝ :=
  let audio_features := batch.1
  let real_poses := batch.2.1
  let prev_poses := batch.2.2
  let pred_poses := sys.fwd audio_features prev_poses
  let base_loss := mseLoss pred_poses real_poses
  let cont_loss := frobNorm (rowDiff pred_poses) / contDivisor pred_poses
  let is_real := ones pred_poses.length 1
  let adv_loss := bceWithLogits (sys.discriminator pred_poses) is_real
  base_loss + sys.hparams.w_cont_loss * cont_loss +
    sys.hparams.w_adv_loss * adv_loss

/-- The `optimizer_idx == 1` branch of
`AdversarialSeq2SeqSystem.training_step` (its `'loss'` entry). -/
noncomputable def AdversarialSeq2SeqSystem.discriminatorStep {P : Type}
    (sys : AdversarialSeq2SeqSystem P) (batch : T2 × T2 × T2) : ℝ :=
  let audio_features := batch.1
  let real_poses := batch.2.1
  let prev_poses := batch.2.2
  let pred_poses := sys.fwd audio_features prev_poses
  let d_real_scores := sys.discriminator real_poses
  let d_fake_scores := sys.discriminator (detach pred_poses)
  let is_real := ones pred_poses.length 1
  let real_loss := bceWithLogits d_real_scores is_real
  let fake_loss := bceWithLogits d_fake_scores (oneSub is_real)
  (real_loss + fake_loss) / 2

/-- `AdversarialSeq2SeqSystem.training_step(batch, batch_nb, optimizer_idx)`:
the `'loss'` entry of the dict it returns; with an index other than 0 or 1
the Python function falls off the end (`None`). -/
noncomputable def AdversarialSeq2SeqSystem.training_step {P : Type}
    (sys : AdversarialSeq2SeqSystem P) (batch : T2 × T2 × T2)
    (batch_nb optimizer_idx : ℕ) : Option ℝ :=
  if optimizer_idx = 0 then some (sys.generatorStep batch)
  else if optimizer_idx = 1 then some (sys.discriminatorStep batch)
  else none

/-- One Adam optimizer as configured by the code: a learning rate, the two
beta coefficients, and the parameters it optimizes. -/
structure AdamOpt (P : Type) where
  lr : ℝ
  beta1 : ℝ
  beta2 : ℝ
  params : List P

/-- `AdversarialSeq2SeqSystem.configure_optimizers`: two Adam optimizers —
the generator one over `list(encoder.parameters()) + list(decoder.parameters())`,
the discriminator one over `discriminator.parameters()` — and no schedulers. -/
def AdversarialSeq2SeqSystem.configure_optimizers {P : Type}
    (sys : AdversarialSeq2SeqSystem P) : List (AdamOpt P) × List Unit :=
  ([⟨sys.hparams.lr, sys.hparams.beta1, sys.hparams.beta2,
      sys.encoder_params ++ sys.decoder_params⟩,
    ⟨sys.hparams.lr, sys.hparams.beta1, sys.hparams.beta2,
      sys.discriminator_params⟩], [])

theorem oneSub_ones (n m : ℕ) : oneSub (ones n m) = zeros n m := by
  simp [oneSub, ones, zeros, List.map_replicate]

/-- C3: For every prediction `p` with at least two rows and target `y` of the
same shape, `calculate_loss` of both `Seq2SeqSystem` and
`AdversarialSeq2SeqSystem` equals `MSELoss(p, y)` plus `0.01` times the
Frobenius norm of `p[1:] - p[:-1]` divided by `p.size(0) - 1`: a
reconstruction term plus a weighted continuity term. -/
theorem C3_loss_is_mse_plus_continuity (P : Type) (enc dec disc : List P)
    (fwd : T2 → T2 → T2) (discNet : T2 → T2) (pp vp : ℕ) (p y : T2)
    (hrows : 2 ≤ p.length) (hshape : y.map List.length = p.map List.length) :
    Seq2SeqSystem.calculate_loss p y =
      mseLoss p y + 0.01 * (frobNorm (rowDiff p) / ((p.length : ℝ) - 1)) ∧
    (AdversarialSeq2SeqSystem.init P enc dec disc fwd discNet pp vp).calculate_loss
        p y =
      mseLoss p y + 0.01 * (frobNorm (rowDiff p) / ((p.length : ℝ) - 1)) := by
  unfold Seq2SeqSystem.calculate_loss AdversarialSeq2SeqSystem.calculate_loss
    AdversarialSeq2SeqSystem.init contDivisor
  constructor <;> ring

/-- C9: the continuity term of `calculate_loss` divides by
`contDivisor p = p.size(0) - 1`, which is zero when `p` has exactly one row;
under the precondition that `p` has at least two rows the divisor is nonzero,
so the division-by-zero branch is unreachable. -/
theorem C9_cont_divisor_nonzero (p : T2) (hrows : 2 ≤ p.length) :
    contDivisor p ≠ 0 := by
  unfold contDivisor
  have h2 : (2 : ℝ) ≤ (p.length : ℝ) := by exact_mod_cast hrows
  intro hc
  have h1 : (p.length : ℝ) = 1 := by linarith
  linarith

/-- C4: `configure_optimizers` of `AdversarialSeq2SeqSystem` returns exactly
two Adam optimizers with `lr 1e-3` and betas `(0.5, 0.9)` — the first over
the concatenation of encoder and decoder parameters, the second over the
discriminator's — and an empty scheduler list; `training_step` computes the
generator-step result when `optimizer_idx` is `0` and the
discriminator-step result when it is `1`. -/
theorem C4_optimizers_and_alternation (P : Type) (enc dec disc : List P)
    (fwd : T2 → T2 → T2) (discNet : T2 → T2) (pp vp : ℕ)
    (batch : T2 × T2 × T2) (batch_nb : ℕ) :
    (AdversarialSeq2SeqSystem.init P enc dec disc fwd discNet pp
        vp).configure_optimizers =
      ([⟨1e-3, 0.5, 0.9, enc ++ dec⟩, ⟨1e-3, 0.5, 0.9, disc⟩], []) ∧
    (AdversarialSeq2SeqSystem.init P enc dec disc fwd discNet pp
        vp).training_step batch batch_nb 0 =
      some ((AdversarialSeq2SeqSystem.init P enc dec disc fwd discNet pp
        vp).generatorStep batch) ∧
    (AdversarialSeq2SeqSystem.init P enc dec disc fwd discNet pp
        vp).training_step batch batch_nb 1 =
      some ((AdversarialSeq2SeqSystem.init P enc dec disc fwd discNet pp
        vp).discriminatorStep batch) :=
  ⟨rfl, rfl, rfl⟩

/-- C5: in the generator step (`optimizer_idx = 0`) the returned loss is the
base MSE between predicted and real poses, plus `0.01` times the continuity
term, plus `0.01` times the BCE-with-logits of `discriminator(pred_poses)`
against an all-ones target of shape `(pred_poses.size(0), 1)`; in the
discriminator step (`optimizer_idx = 1`) the loss is the average of the BCE
of `discriminator(real_poses)` against ones and the BCE of
`discriminator(pred_poses.detach())` against zeros. -/
theorem C5_adversarial_loss_composition (P : Type) (enc dec disc : List P)
    (fwd : T2 → T2 → T2) (discNet : T2 → T2) (pp vp : ℕ)
    (audio real prev : T2) (batch_nb : ℕ) :
    (AdversarialSeq2SeqSystem.init P enc dec disc fwd discNet pp
        vp).training_step (audio, real, prev) batch_nb 0 =
      some (mseLoss (fwd audio prev) real
        + 0.01 * (frobNorm (rowDiff (fwd audio prev)) /
            (((fwd audio prev).length : ℝ) - 1))
        + 0.01 * bceWithLogits (discNet (fwd audio prev))
            (ones (fwd audio prev).length 1)) ∧
    (AdversarialSeq2SeqSystem.init P enc dec disc fwd discNet pp
        vp).training_step (audio, real, prev) batch_nb 1 =
      some ((bceWithLogits (discNet real) (ones (fwd audio prev).length 1)
        + bceWithLogits (discNet (fwd audio prev))
            (zeros (fwd audio prev).length 1)) / 2) := by
  constructor
  · show some _ = some _
    simp only [AdversarialSeq2SeqSystem.generatorStep,
      AdversarialSeq2SeqSystem.init, contDivisor]
  · show some _ = some _
    simp only [AdversarialSeq2SeqSystem.discriminatorStep,
      AdversarialSeq2SeqSystem.init, detach, oneSub_ones]

/-- A concrete 2×2 pose tensor. -/
def exPoses : T2 := [[0, 0], [0, 0]]

theorem C3_loss_is_mse_plus_continuity_witness :
    Seq2SeqSystem.calculate_loss exPoses exPoses =
      mseLoss exPoses exPoses +
        0.01 * (frobNorm (rowDiff exPoses) / ((exPoses.length : ℝ) - 1)) ∧
    (AdversarialSeq2SeqSystem.init Unit [] [] [] (fun _ _ => []) (fun _ => [])
        20 10).calculate_loss exPoses exPoses =
      mseLoss exPoses exPoses +
        0.01 * (frobNorm (rowDiff exPoses) / ((exPoses.length : ℝ) - 1)) :=
  C3_loss_is_mse_plus_continuity Unit [] [] [] (fun _ _ => []) (fun _ => [])
    20 10 exPoses exPoses (by decide) rfl

theorem C9_cont_divisor_nonzero_witness : contDivisor exPoses ≠ 0 :=
  C9_cont_divisor_nonzero exPoses (by decide)
